import Mathlib

/-!
Shallow embedding of the diffoscope comparison core
(src/diffoscope/comparators/binary.py and src/diffoscope/comparators/directory.py),
together with theorems settling the claims about it.

Byte contents are modelled as `List Nat`, strings as Lean `String` or `List Char`.
External tools (xxd, cmp, diff, stat) are modelled by their documented observable
behaviour; the parts of the repository that are referenced but not shipped under
src/ (difference.py, the tool_required decorator) are modelled from the spec and
marked as such in their doc comments.
-/

namespace Diffoscope

/-- Modelled from the spec: the Difference tree node (diffoscope/difference.py is
referenced by the sources but is not under src/).  A node holds the two logical
source labels, an optional unified-diff payload, an ordered list of free-text
comment strings and an ordered list of child nodes. -/
inductive Difference where
  | mk (source1 source2 : String) (unified_diff : Option String)
       (comments : List String) (details : List Difference)

def Difference.source1 : Difference → String
  | .mk s _ _ _ _ => s

def Difference.source2 : Difference → String
  | .mk _ s _ _ _ => s

def Difference.unified_diff : Difference → Option String
  | .mk _ _ u _ _ => u

def Difference.comments : Difference → List String
  | .mk _ _ _ cs _ => cs

def Difference.details : Difference → List Difference
  | .mk _ _ _ _ ds => ds

/-- Modelled from the spec: the `Difference(unified_diff, path1, path2, source=...,
comment=...)` constructor.  When a single source label is given it labels both
sides, otherwise the two paths do; an initial comment, when given, is the sole
comment; a fresh node has no details. -/
def Difference.new (unified : Option String) (path1 path2 : String)
    (source : Option String) (comment : Option String) : Difference :=
  .mk (source.getD path1) (source.getD path2) unified comment.toList []

/-- Modelled from the spec: `add_comment` appends one comment string. -/
def Difference.add_comment (d : Difference) (c : String) : Difference :=
  match d with
  | .mk s1 s2 u cs ds => .mk s1 s2 u (cs ++ [c]) ds

/-- Modelled from the spec: `add_details` appends child nodes in order. -/
def Difference.add_details (d : Difference) (new : List Difference) : Difference :=
  match d with
  | .mk s1 s2 u cs ds => .mk s1 s2 u cs (ds ++ new)

/-- Modelled from the spec: `get_reverse` is the structural reverse — swap
`source1`/`source2` at this node and recursively reverse every descendant, in the
same detail order; payload and comments are carried through. -/
def Difference.get_reverse : Difference → Difference
  | .mk s1 s2 u c ds => .mk s2 s1 u c (ds.attach.map (fun x => x.1.get_reverse))
decreasing_by
  simp_wf
  have := List.sizeOf_lt_of_mem x.2
  omega

/-- Availability of the external tools this core shells out to. -/
structure Env where
  xxd : Bool
  cmp : Bool
  diff : Bool

/-- One side of a comparison: the logical name and the raw byte contents reachable
through `path`. -/
structure File where
  name : String
  content : List Nat

/-- Resolution of the optional `source` argument into the two source labels,
as the Difference constructor does. -/
def sourceLabels (path1 path2 : String) : Option String → String × String
  | none => (path1, path2)
  | some s => (s, s)

/-- A deterministic rendering of a pair of byte contents standing for the textual
unified diff of their hex dumps. -/
def byteDiffText (c1 c2 : List Nat) : String :=
  toString c1 ++ " | " ++ toString c2

/-- `compare_binary_files` (binary.py:49).  With xxd available it produces
`Difference.from_command(Xxd, ...)` with the two file names as source labels;
without xxd it falls back to Python hexlify and `Difference.from_text` with an
explanatory comment.  `Difference.from_command` and `Difference.from_text` are
modelled from the spec (difference.py is not under src/): each diffs the two
deterministic renderings of the byte contents and is absent exactly when the
contents coincide. -/
def compare_binary_files (env : Env) (file1 file2 : File) (source : Option String) :
    Option Difference :=
  if env.xxd then
    if file1.content = file2.content then none
    else some (.mk file1.name file2.name
      (some (byteDiffText file1.content file2.content)) [] [])
  else
    if file1.content = file2.content then none
    else
      some (.mk (sourceLabels file1.name file2.name source).1
        (sourceLabels file1.name file2.name source).2
        (some (byteDiffText file1.content file2.content))
        ["xxd not available in path. Falling back to Python hexlify.\n"] [])

/-- `File.compare_bytes` (binary.py:159) simply delegates to
`compare_binary_files`. -/
def File.compare_bytes (env : Env) (self other : File) (source : Option String) :
    Option Difference :=
  compare_binary_files env self other source

/-- The possible outcomes of the detail-comparison phase inside the `try` block of
`File.compare` (binary.py:191): `compare_details` and the container recursion
together produce a raw sequence of optional Differences, or raise
`subprocess.CalledProcessError` (an external tool exited non-zero), or raise
`RequiredToolNotFound` (a required tool is not installed), or raise some other
exception. -/
inductive DetailOutcome where
  | ok (raw : List (Option Difference))
  | calledProcessError (cmd : List String) (returncode : Int) (output : Option String)
  | requiredToolNotFound (command : String) (package : Option String)
  | raiseOther (e : String)

/-- `File._compare_using_details` (binary.py:162): filter the absent entries out of
the raw detail sequence; if nothing remains return absent, otherwise wrap the
details under a fresh node labeled with both names and the source. -/
def compare_using_details (self other : File) (source : Option String)
    (raw : List (Option Difference)) : Option Difference :=
  let details := raw.filterMap id
  if details.isEmpty then none
  else some ((Difference.new none self.name other.name source none).add_details details)

/-- The `re.sub` with MULTILINE that indents every line of the captured output by
four spaces (binary.py:202): insert four spaces at the start and after every
newline. -/
def indentOutput (s : String) : String :=
  "    " ++ s.replace "\n" ("\n" ++ "    ")

/-- Formatting of `e.output` in the CalledProcessError handler (binary.py:201):
a missing or empty capture renders as a placeholder, anything else is indented.
The captured bytes are modelled post-decoding as an optional string. -/
def formatOutput : Option String → String
  | none => "<none>"
  | some s => if s = "" then "<none>" else indentOutput s

/-- The comment attached in the CalledProcessError handler (binary.py:208). -/
def toolFailureComment (cmd : List String) (returncode : Int)
    (output : Option String) : String :=
  "Command `" ++ String.intercalate " " cmd ++ "` exited with " ++
    toString returncode ++ ". Output:\n" ++ formatOutput output

/-- The first comment attached in the RequiredToolNotFound handler
(binary.py:214). -/
def toolMissingComment (command : String) : String :=
  "\x27" ++ command ++ "\x27 not available in path. Falling back to binary comparison."

/-- The second comment attached in the RequiredToolNotFound handler when the
missing tool has a known package (binary.py:218). -/
def packageComment (package : String) : String :=
  "Install \x27" ++ package ++ "\x27 to get a better output."

/-- `File.compare` (binary.py:189): the orchestration entry point.
`hasDetailsCap` stands for `hasattr(self, compare_details) or self.as_container`;
`outcome` stands for what the detail-comparison phase did.  Exceptions other than
CalledProcessError and RequiredToolNotFound propagate as `.error`. -/
def File.compare (env : Env) (self other : File) (hasDetailsCap : Bool)
    (outcome : DetailOutcome) (source : Option String) :
    Except String (Option Difference) :=
  if hasDetailsCap then
    match outcome with
    | .ok raw =>
      match compare_using_details self other source raw with
      | some d => .ok (some d)
      | none =>
        -- no differences detected inside? let's at least do a binary diff
        match File.compare_bytes env self other source with
        | none => .ok none
        | some d => .ok (some (d.add_comment "No differences found inside, yet data differs"))
    | .calledProcessError cmd returncode output =>
      match File.compare_bytes env self other source with
      | none => .ok none
      | some d => .ok (some (d.add_comment (toolFailureComment cmd returncode output)))
    | .requiredToolNotFound command package =>
      match File.compare_bytes env self other source with
      | none => .ok none
      | some d =>
        let d1 := d.add_comment (toolMissingComment command)
        match package with
        | some p => if p = "" then .ok (some d1) else .ok (some (d1.add_comment (packageComment p)))
        | none => .ok (some d1)
    | .raiseOther e => .error e
  else .ok (File.compare_bytes env self other source)

/-- `NonExistingFile.compare` (binary.py:280).  When the other side is also a
NonExistingFile, return the trivial commented node; otherwise the comparison is
performed backward on the real side — `backward` stands for the value of
`other.compare(self, source)` — and a present result is structurally reversed,
while absent stays absent. -/
def NonExistingFile.compare (selfName otherName : String)
    (otherIsNonExisting : Bool) (backward : Option Difference) : Option Difference :=
  if otherIsNonExisting then
    some (Difference.new none selfName otherName none
      (some "Trying to compare two non-existing files."))
  else
    match backward with
    | none => none
    | some d => some d.get_reverse

/-- binary.py:59. -/
def SMALL_FILE_THRESHOLD : Nat := 65536

/-- The one tool-availability error surfaced by the `tool_required` decorator
(modelled from the spec; the decorator lives in diffoscope/__init__.py which is
not under src/): it raises RequiredToolNotFound for the named command before the
decorated body runs. -/
inductive ToolError where
  | requiredToolNotFound (command : String)

/-- The external `cmp -s` tool: exit status 0 exactly when the two byte contents
are identical. -/
def cmpExitCode (c1 c2 : List Nat) : Nat :=
  if c1 = c2 then 0 else 1

/-- `File.has_same_content_as` (binary.py:174), instrumented: the second component
of the result records whether the external `cmp` process was invoked.  The
`tool_required` decorator raises first when `cmp` is unavailable; otherwise, when
both sizes are equal and small, the two contents read into memory being equal
short-circuits to true; in every other case the result is delegated to `cmp`. -/
def has_same_content_as_run (env : Env) (self other : File) :
    Except ToolError (Bool × Bool) :=
  if env.cmp then
    if self.content.length = other.content.length ∧
       self.content.length ≤ SMALL_FILE_THRESHOLD ∧
       self.content = other.content then
      .ok (true, false)
    else
      .ok (cmpExitCode self.content other.content = 0, true)
  else
    .error (.requiredToolNotFound "cmp")

/-- `File.has_same_content_as` proper: the boolean the caller sees. -/
def has_same_content_as (env : Env) (self other : File) : Except ToolError Bool :=
  (has_same_content_as_run env self other).map Prod.fst

/-! ## The container-view caching protocol (binary.py:101 and binary.py:113) -/

/-- The attribute state of one File object as far as the `as_container` property
and `cleanup` are concerned.  `hasContainerClass` says whether the object's own
class defines CONTAINER_CLASS; `otherFile` is `none` when `_other_file` is unset
and otherwise records whether the counterpart's class defines CONTAINER_CLASS;
`cache` is the `_as_container` attribute, holding the identity of a constructed
container; `constructed` counts the container constructions performed so far and
doubles as the identity of the next one. -/
structure ContainerState where
  hasContainerClass : Bool
  otherFile : Option Bool
  cache : Option Nat
  constructed : Nat

/-- What one read of the `as_container` property yields. -/
inductive AsContainerResult where
  | container (id : Nat)
  | noContainer
  | attributeError
deriving DecidableEq

/-- The `as_container` property (binary.py:113): without an own CONTAINER_CLASS,
a set `_other_file` means a fresh container of the counterpart's class is built
on every access (an AttributeError when that class has none), and an unset one
means no container; with an own CONTAINER_CLASS, the first access constructs and
caches the container and later accesses return the cached one. -/
def as_container (s : ContainerState) : AsContainerResult × ContainerState :=
  if ¬ s.hasContainerClass then
    match s.otherFile with
    | some true => (.container s.constructed, { s with constructed := s.constructed + 1 })
    | some false => (.attributeError, s)
    | none => (.noContainer, s)
  else
    match s.cache with
    | some i => (.container i, s)
    | none => (.container s.constructed,
        { s with cache := some s.constructed, constructed := s.constructed + 1 })

/-- `File.cleanup` (binary.py:101): delete the `_as_container` attribute when it
is present.  It is a total function: safe during the destructor and safe to call
twice. -/
def cleanup (s : ContainerState) : ContainerState :=
  { s with cache := none }

/-! ## The directory comparator (directory.py) -/

mutual
/-- A filesystem entry: a plain file or a directory with its entries in the
order the operating system lists them (os.walk preserves that order; nothing in
the source sorts it). -/
inductive FSTree where
  | file (name : String)
  | dir (name : String) (children : FSForest)
inductive FSForest where
  | nil
  | cons (head : FSTree) (tail : FSForest)
end

/-- `os.path.join` for a relative root: joining from the empty root yields the
name itself, otherwise the separator goes in between. -/
def pjoin (root name : String) : String :=
  if root = "" then name else root ++ "/" ++ name

/-- The plain-file names of one directory level, joined to the walk root, in
entry order (the `files` component of one `os.walk` tuple). -/
def levelFiles (root : String) : FSForest → List String
  | .nil => []
  | .cons (.file n) rest => pjoin root n :: levelFiles root rest
  | .cons (.dir _ _) rest => levelFiles root rest

/-- The subdirectory names of one directory level, joined to the walk root, in
entry order (the `dirs` component of one `os.walk` tuple). -/
def levelDirs (root : String) : FSForest → List String
  | .nil => []
  | .cons (.file _) rest => levelDirs root rest
  | .cons (.dir d _) rest => pjoin root d :: levelDirs root rest

/-- The file paths contributed by the subdirectories of a level, in `os.walk`
top-down order: for each subdirectory in entry order, first its own files, then
its subdirectories recursively. -/
def walkSubdirFiles (root : String) : FSForest → List String
  | .nil => []
  | .cons (.file _) rest => walkSubdirFiles root rest
  | .cons (.dir d c) rest =>
      (levelFiles (pjoin root d) c ++ walkSubdirFiles (pjoin root d) c) ++
        walkSubdirFiles root rest

/-- `DirectoryContainer.get_member_names` (directory.py:166): walk the tree top
down collecting, for each visited root, the file names joined to the root
relative to the container path; the top level uses the empty relative root.
No sorting happens here. -/
def DirectoryContainer.get_member_names (t : FSForest) : List String :=
  levelFiles "" t ++ walkSubdirFiles "" t

/-- The directory and file paths contributed by the subdirectories of a level in
`os.walk` order, directories of a level before its files, as `list_files`
collects them (directory.py:35). -/
def walkSubdirAll (root : String) : FSForest → List String
  | .nil => []
  | .cons (.file _) rest => walkSubdirAll root rest
  | .cons (.dir d c) rest =>
      (levelDirs (pjoin root d) c ++ levelFiles (pjoin root d) c ++
        walkSubdirAll (pjoin root d) c) ++ walkSubdirAll root rest

/-- Code-point comparison of two characters. -/
def charLe (a b : Char) : Bool :=
  a.toNat ≤ b.toNat

/-- Lexicographic comparison of two character lists by code points, the order
Python uses to sort strings. -/
def lexLe : List Char → List Char → Bool
  | [], _ => true
  | _ :: _, [] => false
  | a :: as, b :: bs =>
    if a.toNat < b.toNat then true
    else if b.toNat < a.toNat then false
    else lexLe as bs

/-- The string order used by Python `sorted` / `list.sort`, as a relation. -/
def strLeRel (a b : String) : Prop :=
  lexLe a.toList b.toList = true

instance : DecidableRel strLeRel := fun a b => by
  unfold strLeRel
  infer_instance

/-- The Python string order is total. -/
instance : IsTotal String strLeRel := ⟨fun a b => go a.toList b.toList⟩
where
  go : ∀ a b : List Char, lexLe a b = true ∨ lexLe b a = true
    | [], _ => .inl rfl
    | _ :: _, [] => .inr rfl
    | a :: as, b :: bs => by
      unfold lexLe
      by_cases h1 : a.toNat < b.toNat
      · left
        simp [h1]
      · by_cases h2 : b.toNat < a.toNat
        · right
          simp [h2]
        · rcases go as bs with h | h
          · left
            simp [h1, h2, h]
          · right
            simp [h1, h2, h]

/-- The Python string order is transitive. -/
instance : IsTrans String strLeRel :=
  ⟨fun a b c h1 h2 => go a.toList b.toList c.toList h1 h2⟩
where
  go : ∀ a b c : List Char,
      lexLe a b = true → lexLe b c = true → lexLe a c = true
    | [], _, _, _, _ => rfl
    | _ :: _, [], _, h1, _ => by simp [lexLe] at h1
    | _ :: _, _ :: _, [], _, h2 => by simp [lexLe] at h2
    | a :: as, b :: bs, c :: cs, h1, h2 => by
      unfold lexLe at h1 h2 ⊢
      by_cases hab : a.toNat < b.toNat <;> by_cases hba : b.toNat < a.toNat <;>
        by_cases hbc : b.toNat < c.toNat <;> by_cases hcb : c.toNat < b.toNat <;>
        simp [hab, hba, hbc, hcb] at h1 h2 ⊢ <;>
        first
          | omega
          | (constructor <;> omega)
          | (have hac : ¬ a.toNat < c.toNat := by omega
             have hca : ¬ c.toNat < a.toNat := by omega
             simp [hac, hca]
             first
               | exact go as bs cs h1 h2
               | exact ⟨by omega, go as bs cs h1 h2⟩)

/-- `list_files` (directory.py:32): walk the tree collecting directories and
files of each visited root, then sort. -/
def list_files (t : FSForest) : List String :=
  List.insertionSort strLeRel (levelDirs "" t ++ levelFiles "" t ++ walkSubdirAll "" t)

/-- A deterministic rendering standing for the textual unified diff of two
texts. -/
def textDiffText (t1 t2 : String) : String :=
  t1 ++ " | " ++ t2

/-- Modelled from the spec: `Difference.from_text` (difference.py is not under
src/) diffs two texts with the external diff machinery and returns a Difference
exactly when they differ, labeled by the source when given and by the two paths
otherwise. -/
def from_text (text1 text2 : String) (path1 path2 : String)
    (source : Option String) : Option Difference :=
  if text1 = text2 then none
  else some (.mk (sourceLabels path1 path2 source).1
    (sourceLabels path1 path2 source).2 (some (textDiffText text1 text2)) [] [])

/-- A filesystem directory entity: its path and the tree of entries below it. -/
structure FilesystemDirectory where
  path : String
  tree : FSForest

/-- The per-member body of the loop in `FilesystemDirectory.compare`
(directory.py:148): recursively compare the two member files, compute their
metadata differences, synthesize an empty placeholder node when only metadata
differs, attach the metadata differences as details of the member node, and
contribute nothing when neither content nor metadata differ.  `compare_files`
stands for the out-of-scope dispatcher `diffoscope.comparators.compare_files`
and `compare_meta` for `compare_meta` with its external tools. -/
def memberEntry (compare_files : String → String → Option String → Option Difference)
    (compare_meta : String → String → List Difference)
    (selfPath otherPath name : String) : Option Difference :=
  let myPath := pjoin selfPath name
  let oPath := pjoin otherPath name
  match compare_files myPath oPath (some name) with
  | some d => some (d.add_details (compare_meta myPath oPath))
  | none =>
    let meta := compare_meta myPath oPath
    if meta.isEmpty then none
    else some ((Difference.new none myPath oPath none none).add_details meta)

/-- `sorted(set(my_names).intersection(other_names))` (directory.py:147): the
distinct member names present on both sides, in Python sorted order. -/
def commonNames (myNames otherNames : List String) : List String :=
  List.insertionSort strLeRel ((myNames.filter (fun n => n ∈ otherNames)).dedup)

/-- `'\n'.join(...)`. -/
def joinNL (l : List String) : String :=
  String.intercalate "\n" l

/-- The "file list" detail of a directory comparison (directory.py:135): the
sorted recursive listings of both sides joined by newlines and diffed as one
pseudo-file; omitted (logged) when the diff tool is unavailable. -/
def listingDiff (env : Env) (self other : FilesystemDirectory) : Option Difference :=
  if env.diff then
    from_text (joinNL (list_files self.tree)) (joinNL (list_files other.tree))
      self.path other.path (some "file list")
  else none

/-- The `differences` list accumulated by `FilesystemDirectory.compare`
(directory.py:133): the "file list" detail when present, then the
directory-level metadata differences, then, for each member name in the sorted
intersection of the two member-name sets, that member's entry when it
contributes one. -/
def dirDifferences (env : Env)
    (compare_files : String → String → Option String → Option Difference)
    (compare_meta : String → String → List Difference)
    (self other : FilesystemDirectory) : List Difference :=
  (listingDiff env self other).toList ++ compare_meta self.path other.path ++
    (commonNames (DirectoryContainer.get_member_names self.tree)
        (DirectoryContainer.get_member_names other.tree)).filterMap
      (memberEntry compare_files compare_meta self.path other.path)

/-- `FilesystemDirectory.compare` (directory.py:132): absent when nothing
differed anywhere — listing, directory metadata or any common member — and
otherwise one node for the directory pair carrying all accumulated differences
as details. -/
def FilesystemDirectory.compare (env : Env)
    (compare_files : String → String → Option String → Option Difference)
    (compare_meta : String → String → List Difference)
    (self other : FilesystemDirectory) (source : Option String) : Option Difference :=
  if (dirDifferences env compare_files compare_meta self other).isEmpty then none
  else some ((Difference.new none self.path other.path source none).add_details
    (dirDifferences env compare_files compare_meta self other))

/-! ## The Stat command filter (directory.py:42)

`Stat.filter` applies six `re.sub` substitutions with an empty replacement to
each output line of the external stat tool.  Lines are modelled as `List Char`
without their terminating newline (the substituted spans never include it).
The patterns contain no constructs that need backtracking: every repetition
`[c...]+` is followed by a character outside its class, so maximal munch is the
regex semantics, and the two `{n}` counts are exact.  `^` and `$`, with no
MULTILINE flag, anchor at the very start and end of the line. -/

/-- `[0-9]`. -/
def isDigitCh (c : Char) : Bool :=
  48 ≤ c.toNat && c.toNat ≤ 57

/-- `[0-9a-f]`. -/
def isHexLowerCh (c : Char) : Bool :=
  isDigitCh c || (97 ≤ c.toNat && c.toNat ≤ 102)

/-- `\s` over the ASCII range the stat output uses. -/
def isSpaceCh (c : Char) : Bool :=
  c = ' ' || c = '\t' || c = '\n' || c = '\x0d' || c = '\x0b' || c = '\x0c'

/-- Drop an exact literal from the head of the input, or fail. -/
def dropLit : List Char → List Char → Option (List Char)
  | [], l => some l
  | _ :: _, [] => none
  | p :: ps, c :: cs => if c = p then dropLit ps cs else none

/-- Length of the maximal prefix whose characters satisfy the class. -/
def countWhile (p : Char → Bool) : List Char → Nat
  | [] => 0
  | c :: cs => if p c then countWhile p cs + 1 else 0

/-- Drop exactly `n` digits from the head of the input, or fail
(`[0-9]{n}`). -/
def dropDigits : Nat → List Char → Option (List Char)
  | 0, l => some l
  | _ + 1, [] => none
  | n + 1, c :: cs => if isDigitCh c then dropDigits n cs else none

def litFile : List Char := ['F', 'i', 'l', 'e', ':']
def litDevice : List Char := ['D', 'e', 'v', 'i', 'c', 'e', ':', ' ']
def litInode : List Char := ['I', 'n', 'o', 'd', 'e', ':', ' ']
def litLinks : List Char := ['L', 'i', 'n', 'k', 's', ':', ' ']
def litAccess : List Char := ['A', 'c', 'c', 'e', 's', 's', ':', ' ']
def litChange : List Char := ['C', 'h', 'a', 'n', 'g', 'e', ':', ' ']

/-- One match attempt of `DEVICE_RE = Device: [0-9a-f]+h/[0-9]+d` at the head of
the input, returning the length of the matched span.  `h` is outside `[0-9a-f]`
and `d` outside `[0-9]`, so the maximal runs are the matched ones. -/
def deviceMatch (l : List Char) : Option Nat :=
  match dropLit litDevice l with
  | none => none
  | some r1 =>
    if countWhile isHexLowerCh r1 = 0 then none
    else
      match dropLit ['h', '/'] (r1.drop (countWhile isHexLowerCh r1)) with
      | none => none
      | some r2 =>
        if countWhile isDigitCh r2 = 0 then none
        else
          match dropLit ['d'] (r2.drop (countWhile isDigitCh r2)) with
          | none => none
          | some _ =>
            some (8 + countWhile isHexLowerCh r1 + 2 + countWhile isDigitCh r2 + 1)

/-- One match attempt of `INODE_RE = Inode: [0-9]+` at the head of the input. -/
def inodeMatch (l : List Char) : Option Nat :=
  match dropLit litInode l with
  | none => none
  | some r =>
    if countWhile isDigitCh r = 0 then none else some (7 + countWhile isDigitCh r)

/-- One match attempt of `LINKS_RE = Links: [0-9]+` at the head of the input. -/
def linksMatch (l : List Char) : Option Nat :=
  match dropLit litLinks l with
  | none => none
  | some r =>
    if countWhile isDigitCh r = 0 then none else some (7 + countWhile isDigitCh r)

/-- `re.sub(pattern, r.emptyReplacement, line)` for an unanchored pattern, with
bounded fuel: scan left to right, replace each non-overlapping match with
nothing and continue right after it.  Every matcher used here consumes at least
its leading literal, so `l.length` fuel always suffices. -/
def substFuel (μ : List Char → Option Nat) : Nat → List Char → List Char
  | 0, l => l
  | _ + 1, [] => []
  | fuel + 1, c :: cs =>
    match μ (c :: cs) with
    | some k => substFuel μ fuel (cs.drop (k - 1))
    | none => c :: substFuel μ fuel cs

/-- The substitution entry point. -/
def subst (μ : List Char → Option Nat) (l : List Char) : List Char :=
  substFuel μ l.length l

/-- `FILE_RE = ^\s*File:.*$` as a substitution on one newline-free line: the
pattern is anchored on both sides, so a match erases the whole line.  `F` is not
whitespace, so the maximal whitespace run is the matched one. -/
def fileLineSub (l : List Char) : List Char :=
  match dropLit litFile (l.drop (countWhile isSpaceCh l)) with
  | some _ => []
  | none => l

/-- `^Lit: [0-9]{4}-[0-9]{2}-[0-9]{2}.*$` as a substitution on one newline-free
line, shared by `ACCESS_TIME_RE` and `CHANGE_TIME_RE`: anchored on both sides,
a match erases the whole line. -/
def timeLineSub (lit : List Char) (l : List Char) : List Char :=
  match dropLit lit l with
  | none => l
  | some r1 =>
    match dropDigits 4 r1 with
    | none => l
    | some r2 =>
      match dropLit ['-'] r2 with
      | none => l
      | some r3 =>
        match dropDigits 2 r3 with
        | none => l
        | some r4 =>
          match dropLit ['-'] r4 with
          | none => l
          | some r5 =>
            match dropDigits 2 r5 with
            | none => l
            | some _ => []

/-- `Stat.filter` (directory.py:54): the six substitutions applied to one line in
source order (the utf-8 decode and encode around them are the identity on the
character model). -/
def Stat.filter (line : List Char) : List Char :=
  timeLineSub litChange
    (timeLineSub litAccess
      (subst linksMatch
        (subst inodeMatch
          (subst deviceMatch
            (fileLineSub line)))))

/-- Modelled from the spec: `Difference.from_command(Stat, path1, path2)`
(difference.py is not under src/) runs the stat tool on each path, applies
`Stat.filter` to every output line, and produces a Difference exactly when the
filtered outputs differ. -/
def statDifference (out1 out2 : List (List Char)) (path1 path2 : String) :
    Option Difference :=
  if out1.map Stat.filter = out2.map Stat.filter then none
  else some (.mk path1 path2 (some "stat-diff") [] [])

/-- The characters appearing in a rendered stat timestamp after the date —
digits, space, colon, dot, plus, minus.  None of them is a capital letter, so
the scanning substitutions cannot start a match inside a timestamp. -/
def isTimeCh (c : Char) : Bool :=
  isDigitCh c || c = '-' || c = ' ' || c = ':' || c = '.' || c = '+'

/-- The output of the external stat tool for one path, as the fields the
comparison cares about (the tool itself is outside the repository; the rendered
shape below follows the spec's description of its output: a File line, a size
line, a line carrying device/inode/link-count, a permissions line, access,
modify and change timestamp lines). -/
structure StatOutput where
  fileLine : List Char
  sizeLine : List Char
  devHex : List Char
  devDec : List Char
  inode : List Char
  links : List Char
  permsLine : List Char
  atime : List Char
  mtimeLine : List Char
  ctime : List Char

/-- The rendered stat output: one line per field group, volatile values embedded
in the regex-recognizable layout. -/
def renderStat (s : StatOutput) : List (List Char) :=
  [s.fileLine,
   s.sizeLine,
   litDevice ++ s.devHex ++ 'h' :: '/' :: (s.devDec ++ 'd' :: '\t' ::
     (litInode ++ s.inode ++ ' ' :: ' ' :: (litLinks ++ s.links))),
   s.permsLine,
   litAccess ++ s.atime,
   s.mtimeLine,
   litChange ++ s.ctime]

/-- A well-formed timestamp value: a `[0-9]{4}-[0-9]{2}-[0-9]{2}` date followed
by time-characters only. -/
def TimeShaped (t : List Char) : Prop :=
  ∃ y m d rest,
    t = y ++ '-' :: (m ++ '-' :: (d ++ rest)) ∧
    y.length = 4 ∧ m.length = 2 ∧ d.length = 2 ∧
    (∀ c ∈ y, isDigitCh c = true) ∧ (∀ c ∈ m, isDigitCh c = true) ∧
    (∀ c ∈ d, isDigitCh c = true) ∧ (∀ c ∈ rest, isTimeCh c = true)

/-- Well-formedness of the volatile fields of a rendered stat output: the device
id is a nonempty lower-hex string and a nonempty decimal string, inode and link
count are nonempty decimal strings, and the two volatile timestamps are
well-shaped. -/
def StatShaped (s : StatOutput) : Prop :=
  s.devHex ≠ [] ∧ (∀ c ∈ s.devHex, isHexLowerCh c = true) ∧
  s.devDec ≠ [] ∧ (∀ c ∈ s.devDec, isDigitCh c = true) ∧
  s.inode ≠ [] ∧ (∀ c ∈ s.inode, isDigitCh c = true) ∧
  s.links ≠ [] ∧ (∀ c ∈ s.links, isDigitCh c = true) ∧
  TimeShaped s.atime ∧ TimeShaped s.ctime

/-! ## Spec-side definitions and concrete fixtures for the directory claims -/

/-- The member-name enumeration as the spec words it ("full recursive
enumeration of descendant file paths", relative paths rooted at the container's
own root): a straightforward structural enumeration, to be compared with the
source's `get_member_names`. -/
def enumFiles : FSForest → List String
  | .nil => []
  | .cons (.file n) rest => n :: enumFiles rest
  | .cons (.dir d c) rest => (enumFiles c).map (pjoin d) ++ enumFiles rest

/-- Well-formedness of a filesystem tree: directory entries carry nonempty
names, as every real directory listing does. -/
def noEmptyDirNames : FSForest → Bool
  | .nil => true
  | .cons (.file _) rest => noEmptyDirNames rest
  | .cons (.dir d c) rest => (d ≠ "") && noEmptyDirNames c && noEmptyDirNames rest

/-- A size measure on forests for recursion over subtrees. -/
def sizeF : FSForest → Nat
  | .nil => 0
  | .cons (.file _) rest => 1 + sizeF rest
  | .cons (.dir _ c) rest => 1 + sizeF c + sizeF rest

/-- Example collaborator: a content comparison that always reports a
difference, labeled by the two member paths. -/
def cfAlways : String → String → Option String → Option Difference :=
  fun p o _ => some (.mk p o none [] [])

/-- Example collaborator: a metadata comparison that never reports a
difference. -/
def cmNever : String → String → List Difference :=
  fun _ _ => []

/-- The directory of the spec's sorted-traversal scenario, members b, a, c in
on-disk order. -/
def forestBAC : FSForest :=
  .cons (.file "b") (.cons (.file "a") (.cons (.file "c") .nil))

/-- The same member set in a different on-disk order. -/
def forestCAB : FSForest :=
  .cons (.file "c") (.cons (.file "a") (.cons (.file "b") .nil))

/-- A directory with one shared member and one one-sided member. -/
def forestAX : FSForest :=
  .cons (.file "a") (.cons (.file "only_left.txt") .nil)

/-- A directory with just the shared member. -/
def forestA : FSForest :=
  .cons (.file "a") .nil

/-! ## Helper lemmas -/

theorem comments_add_comment (d : Difference) (c : String) :
    (d.add_comment c).comments = d.comments ++ [c] := by
  cases d
  rfl

theorem comments_mem_add_comment (d : Difference) (c : String) :
    c ∈ (d.add_comment c).comments := by
  rw [comments_add_comment]
  simp

theorem add_comment_mono (d : Difference) (c c' : String) (h : c ∈ d.comments) :
    c ∈ (d.add_comment c').comments := by
  rw [comments_add_comment]
  exact List.mem_append_left _ h

theorem get_reverse_mk (s1 s2 : String) (u : Option String)
    (c : List String) (ds : List Difference) :
    (Difference.mk s1 s2 u c ds).get_reverse =
      .mk s2 s1 u c (ds.map Difference.get_reverse) := by
  rw [Difference.get_reverse, List.attach_map_coe]

theorem compare_bytes_none_iff (env : Env) (self other : File) (source : Option String) :
    File.compare_bytes env self other source = none ↔ self.content = other.content := by
  unfold File.compare_bytes compare_binary_files
  cases henv : env.xxd <;>
    by_cases h2 : self.content = other.content <;> simp [h2]

theorem compare_bytes_some_of_ne (env : Env) (self other : File) (source : Option String)
    (h : self.content ≠ other.content) :
    ∃ d, File.compare_bytes env self other source = some d := by
  cases hcb : File.compare_bytes env self other source with
  | none => exact absurd ((compare_bytes_none_iff env self other source).mp hcb) h
  | some d => exact ⟨d, rfl⟩

/-! ## Claim theorems -/

/-- C1: when the detail-comparison phase raises CalledProcessError (an external
tool exited non-zero) or RequiredToolNotFound (a required tool is missing),
`File.compare` never raises: it falls back to `compare_bytes` and returns absent
when the byte comparison finds no difference, and otherwise a Difference whose
comments carry, for a tool failure, the failing command line, exit code and
captured output, and, for a missing tool, the tool name and, when known, the
providing package; any other exception propagates uncaught. -/
theorem compare_tool_error_fallback
    (env : Env) (self other : File) (source : Option String)
    (cmd : List String) (rc : Int) (out : Option String)
    (command : String) (pkg : Option String) (e : String) :
    (∃ r, File.compare env self other true (.calledProcessError cmd rc out) source = .ok r ∧
      (r = none ↔ self.content = other.content) ∧
      ∀ d, r = some d → toolFailureComment cmd rc out ∈ d.comments) ∧
    (∃ r, File.compare env self other true (.requiredToolNotFound command pkg) source = .ok r ∧
      (r = none ↔ self.content = other.content) ∧
      ∀ d, r = some d → toolMissingComment command ∈ d.comments ∧
        ∀ p, pkg = some p → p ≠ "" → packageComment p ∈ d.comments) ∧
    File.compare env self other true (.raiseOther e) source = .error e := by
  refine ⟨?_, ?_, by simp [File.compare]⟩
  · cases hcb : File.compare_bytes env self other source with
    | none =>
      refine ⟨none, by simp [File.compare, hcb], ?_, by simp⟩
      simpa using (compare_bytes_none_iff env self other source).mp hcb
    | some d0 =>
      refine ⟨some (d0.add_comment (toolFailureComment cmd rc out)),
        by simp [File.compare, hcb], ?_, ?_⟩
      · constructor
        · intro h
          exact absurd h (by simp)
        · intro h
          have : File.compare_bytes env self other source = none :=
            (compare_bytes_none_iff env self other source).mpr h
          rw [hcb] at this
          exact absurd this (by simp)
      · intro d hd
        injection hd with hd
        rw [← hd]
        exact comments_mem_add_comment _ _
  · cases hcb : File.compare_bytes env self other source with
    | none =>
      refine ⟨none, by simp [File.compare, hcb], ?_, by simp⟩
      simpa using (compare_bytes_none_iff env self other source).mp hcb
    | some d0 =>
      have hne : ¬ self.content = other.content := by
        intro h
        have : File.compare_bytes env self other source = none :=
          (compare_bytes_none_iff env self other source).mpr h
        rw [hcb] at this
        exact absurd this (by simp)
      cases pkg with
      | none =>
        refine ⟨some ((d0.add_comment (toolMissingComment command))),
          by simp [File.compare, hcb], by simp [hne], ?_⟩
        intro d hd
        injection hd with hd
        rw [← hd]
        exact ⟨comments_mem_add_comment _ _, by simp⟩
      | some p =>
        by_cases hp : p = ""
        · refine ⟨some ((d0.add_comment (toolMissingComment command))),
            by simp [File.compare, hcb, hp], by simp [hne], ?_⟩
          intro d hd
          injection hd with hd
          rw [← hd]
          refine ⟨comments_mem_add_comment _ _, ?_⟩
          intro q hq hq'
          injection hq with hq
          exact absurd (hq ▸ hp) hq'
        · refine ⟨some (((d0.add_comment (toolMissingComment command))).add_comment
              (packageComment p)),
            by simp [File.compare, hcb, hp], by simp [hne], ?_⟩
          intro d hd
          injection hd with hd
          rw [← hd]
          refine ⟨add_comment_mono _ _ _ (comments_mem_add_comment _ _), ?_⟩
          intro q hq _
          injection hq with hq
          rw [← hq]
          exact comments_mem_add_comment _ _

/-- C1 witness: a concrete tool failure and a concrete missing tool on files
with differing bytes. -/
theorem compare_tool_error_fallback_witness :
    ∃ r, File.compare ⟨true, true, true⟩ ⟨"a", [0]⟩ ⟨"b", [1]⟩ true
        (.calledProcessError ["tar", "tf"] 2 (some "boom")) none = .ok r ∧
      ∃ d, r = some d ∧ toolFailureComment ["tar", "tf"] 2 (some "boom") ∈ d.comments := by
  obtain ⟨⟨r, hr, hiff, hcm⟩, -, -⟩ :=
    compare_tool_error_fallback ⟨true, true, true⟩ ⟨"a", [0]⟩ ⟨"b", [1]⟩ none
      ["tar", "tf"] 2 (some "boom") "tar" none "x"
  cases hsome : r with
  | none =>
    have : ([0] : List Nat) = [1] := by simpa [hsome] using hiff.mp hsome
    simp at this
  | some d => exact ⟨r, hr, d, hsome, hcm d hsome⟩

/-- C3: when the details-based comparison finds nothing but the two byte
contents differ, `File.compare` returns the byte comparison's Difference with
the comment exactly "No differences found inside, yet data differs" added. -/
theorem compare_fallback_on_emptiness
    (env : Env) (self other : File) (source : Option String)
    (raw : List (Option Difference))
    (hraw : raw.filterMap id = []) (hne : self.content ≠ other.content) :
    ∃ d0, File.compare_bytes env self other source = some d0 ∧
      File.compare env self other true (.ok raw) source =
        .ok (some (d0.add_comment "No differences found inside, yet data differs")) ∧
      "No differences found inside, yet data differs" ∈
        (d0.add_comment "No differences found inside, yet data differs").comments := by
  obtain ⟨d0, hd0⟩ := compare_bytes_some_of_ne env self other source hne
  refine ⟨d0, hd0, ?_, comments_mem_add_comment _ _⟩
  simp [File.compare, compare_using_details, hraw, hd0]

/-- C3 witness: concrete files with differing bytes and an empty detail
sequence. -/
theorem compare_fallback_on_emptiness_witness :
    ∃ d0, File.compare_bytes ⟨true, true, true⟩ ⟨"a", [0]⟩ ⟨"b", [1]⟩ none = some d0 ∧
      File.compare ⟨true, true, true⟩ ⟨"a", [0]⟩ ⟨"b", [1]⟩ true (.ok [none]) none =
        .ok (some (d0.add_comment "No differences found inside, yet data differs")) := by
  obtain ⟨d0, h1, h2, -⟩ :=
    compare_fallback_on_emptiness ⟨true, true, true⟩ ⟨"a", [0]⟩ ⟨"b", [1]⟩ none
      [none] (by simp) (by simp)
  exact ⟨d0, h1, h2⟩

/-- C10: in the fallback-on-emptiness path, byte-identical contents make
`File.compare` return absent with no comment anywhere, and the
"No differences found inside, yet data differs" comment appears only when the
byte comparison actually produced a Difference, i.e. only when the contents
differ. -/
theorem compare_empty_details_identical_absent
    (env : Env) (self other : File) (source : Option String)
    (raw : List (Option Difference)) (hraw : raw.filterMap id = []) :
    (self.content = other.content →
      File.compare env self other true (.ok raw) source = .ok none) ∧
    (∀ d, File.compare env self other true (.ok raw) source = .ok (some d) →
      self.content ≠ other.content ∧
      "No differences found inside, yet data differs" ∈ d.comments) := by
  constructor
  · intro heq
    have hcb : File.compare_bytes env self other source = none :=
      (compare_bytes_none_iff env self other source).mpr heq
    simp [File.compare, compare_using_details, hraw, hcb]
  · intro d hd
    by_cases heq : self.content = other.content
    · have hcb : File.compare_bytes env self other source = none :=
        (compare_bytes_none_iff env self other source).mpr heq
      simp [File.compare, compare_using_details, hraw, hcb] at hd
    · obtain ⟨d0, h1, h2, h3⟩ :=
        compare_fallback_on_emptiness env self other source raw hraw heq
      rw [h2] at hd
      injection hd with hd
      injection hd with hd
      rw [← hd]
      exact ⟨heq, h3⟩

/-- C10 witness: concrete byte-identical files with an empty detail sequence. -/
theorem compare_empty_details_identical_absent_witness :
    File.compare ⟨true, true, true⟩ ⟨"a", [7]⟩ ⟨"b", [7]⟩ true (.ok [none, none]) none =
      .ok none := by
  exact (compare_empty_details_identical_absent ⟨true, true, true⟩ ⟨"a", [7]⟩ ⟨"b", [7]⟩
    none [none, none] (by simp)).1 rfl

/-- C2: a NonExistingFile compared against a real entity yields exactly the
structural reverse of the backward comparison — absent stays absent, a present
tree is reversed: at every node the source labels are swapped, comments kept and
the details reversed recursively in the same order; and comparing two
NonExistingFiles yields the single commented Difference with no details. -/
theorem missing_side_reversal (selfName otherName : String)
    (backward : Option Difference) :
    NonExistingFile.compare selfName otherName false backward =
      backward.map Difference.get_reverse ∧
    (backward = none →
      NonExistingFile.compare selfName otherName false backward = none) ∧
    (∀ d : Difference,
      d.get_reverse.source1 = d.source2 ∧
      d.get_reverse.source2 = d.source1 ∧
      d.get_reverse.comments = d.comments ∧
      d.get_reverse.unified_diff = d.unified_diff ∧
      d.get_reverse.details = d.details.map Difference.get_reverse) ∧
    NonExistingFile.compare selfName otherName true backward =
      some (.mk selfName otherName none
        ["Trying to compare two non-existing files."] []) := by
  refine ⟨?_, ?_, ?_, rfl⟩
  · cases backward <;> rfl
  · intro h
    rw [h]
    rfl
  · intro d
    cases d with
    | mk s1 s2 u c ds =>
      rw [get_reverse_mk]
      exact ⟨rfl, rfl, rfl, rfl, rfl⟩

/-- C2 witness: a concrete two-level backward tree is reversed at both depths,
and the two-missing case yields the commented node. -/
theorem missing_side_reversal_witness :
    NonExistingFile.compare "gone" "real" false
        (some (.mk "r1" "r2" none ["c"] [.mk "i1" "i2" (some "u") [] []])) =
      some (.mk "r2" "r1" none ["c"] [.mk "i2" "i1" (some "u") [] []]) ∧
    NonExistingFile.compare "gone" "gone2" true none =
      some (.mk "gone" "gone2" none
        ["Trying to compare two non-existing files."] []) := by
  obtain ⟨h1, -, -, h4⟩ := missing_side_reversal "gone" "real"
    (some (.mk "r1" "r2" none ["c"] [.mk "i1" "i2" (some "u") [] []]))
  refine ⟨?_, (missing_side_reversal "gone" "gone2" none).2.2.2⟩
  rw [h1]
  simp [get_reverse_mk]

/-- C4: with the byte-comparison tool available, `has_same_content_as` returns
true exactly when the two byte contents are equal, and its result always agrees
with the external byte-comparison tool (exit status zero meaning equal) — in
particular for files of at most 64 KiB, including empty files, the in-memory
shortcut agrees with the full byte-by-byte external path. -/
theorem has_same_content_iff_equal (env : Env) (self other : File)
    (h : env.cmp = true) :
    (has_same_content_as env self other = .ok true ↔ self.content = other.content) ∧
    has_same_content_as env self other =
      .ok (decide (cmpExitCode self.content other.content = 0)) := by
  have hrun : has_same_content_as env self other =
      .ok (decide (cmpExitCode self.content other.content = 0)) := by
    unfold has_same_content_as has_same_content_as_run
    rw [if_pos h]
    by_cases hc : self.content.length = other.content.length ∧
        self.content.length ≤ SMALL_FILE_THRESHOLD ∧ self.content = other.content
    · rw [if_pos hc]
      simp [Except.map, cmpExitCode, hc.2.2]
    · rw [if_neg hc]
      simp [Except.map]
  refine ⟨?_, hrun⟩
  rw [hrun]
  unfold cmpExitCode
  by_cases heq : self.content = other.content <;> simp [heq]

/-- C4 witness: empty files and small differing files, checked concretely. -/
theorem has_same_content_iff_equal_witness :
    has_same_content_as ⟨true, true, true⟩ ⟨"a", []⟩ ⟨"b", []⟩ = .ok true ∧
    has_same_content_as ⟨true, true, true⟩ ⟨"a", [1, 2]⟩ ⟨"b", [1, 3]⟩ =
      .ok (decide (cmpExitCode [1, 2] [1, 3] = 0)) := by
  exact ⟨(has_same_content_iff_equal ⟨true, true, true⟩ ⟨"a", []⟩ ⟨"b", []⟩ rfl).1.mpr rfl,
    (has_same_content_iff_equal ⟨true, true, true⟩ ⟨"a", [1, 2]⟩ ⟨"b", [1, 3]⟩ rfl).2⟩

/-- C9: `has_same_content_as` is guarded by `tool_required` for cmp
unconditionally — with cmp unavailable it raises for every input, even small
equal-sized ones that could be compared in memory — and the in-memory fast path
short-circuits only the equal outcome: equal-sized small files with unequal
contents still invoke the external tool, while the equal small case does not. -/
theorem has_same_content_requires_cmp (env : Env) (self other : File) :
    (env.cmp = false →
      has_same_content_as env self other = .error (.requiredToolNotFound "cmp") ∧
      has_same_content_as_run env self other = .error (.requiredToolNotFound "cmp")) ∧
    (env.cmp = true → self.content.length = other.content.length →
      self.content.length ≤ SMALL_FILE_THRESHOLD → self.content ≠ other.content →
      has_same_content_as_run env self other = .ok (false, true)) ∧
    (env.cmp = true → self.content.length ≤ SMALL_FILE_THRESHOLD →
      self.content = other.content →
      has_same_content_as_run env self other = .ok (true, false)) := by
  refine ⟨?_, ?_, ?_⟩
  · intro h
    unfold has_same_content_as has_same_content_as_run
    rw [h]
    exact ⟨rfl, rfl⟩
  · intro h hlen hsmall hne
    unfold has_same_content_as_run
    rw [if_pos h]
    have hnc : ¬ (self.content.length = other.content.length ∧
        self.content.length ≤ SMALL_FILE_THRESHOLD ∧ self.content = other.content) := by
      intro hc
      exact hne hc.2.2
    rw [if_neg hnc]
    simp [cmpExitCode, hne]
  · intro h hsmall heq
    unfold has_same_content_as_run
    rw [if_pos h]
    have hc : self.content.length = other.content.length ∧
        self.content.length ≤ SMALL_FILE_THRESHOLD ∧ self.content = other.content :=
      ⟨by rw [heq], hsmall, heq⟩
    rw [if_pos hc]

/-- C9 witness: concrete equal-sized small unequal files with cmp missing and
with cmp present. -/
theorem has_same_content_requires_cmp_witness :
    has_same_content_as ⟨true, false, true⟩ ⟨"a", [1]⟩ ⟨"b", [2]⟩ =
      .error (.requiredToolNotFound "cmp") ∧
    has_same_content_as_run ⟨true, true, true⟩ ⟨"a", [1]⟩ ⟨"b", [2]⟩ =
      .ok (false, true) := by
  refine ⟨((has_same_content_requires_cmp ⟨true, false, true⟩ ⟨"a", [1]⟩ ⟨"b", [2]⟩).1 rfl).1,
    (has_same_content_requires_cmp ⟨true, true, true⟩ ⟨"a", [1]⟩ ⟨"b", [2]⟩).2.1 rfl rfl
      (by norm_num [SMALL_FILE_THRESHOLD]) (by simp)⟩

/-- C8 counterexample: an Entity without its own container class but with a
counterpart whose class has one (the NonExistingFile delegation path,
binary.py:116) constructs a fresh container view on every access — two accesses
construct two distinct views, so at most one container view per Entity is
false. -/
theorem as_container_counterexample :
    (as_container ⟨false, some true, none, 0⟩).1 = .container 0 ∧
    (as_container (as_container ⟨false, some true, none, 0⟩).2).1 = .container 1 ∧
    (as_container (as_container ⟨false, some true, none, 0⟩).2).2.constructed = 2 ∧
    (as_container ⟨false, some true, none, 0⟩).1 ≠
      (as_container (as_container ⟨false, some true, none, 0⟩).2).1 := by
  refine ⟨rfl, rfl, rfl, by decide⟩

/-- C8 amended: for an Entity whose own class defines a container class, the
container view is constructed lazily on the first access and cached — a repeated
access returns the same result and leaves the state unchanged, the first access
on an empty cache performs exactly one construction and stores it — and cleanup
is idempotent and total for every Entity. -/
theorem as_container_cached_amended (s t : ContainerState)
    (h : s.hasContainerClass = true) :
    (as_container (as_container s).2).1 = (as_container s).1 ∧
    (as_container (as_container s).2).2 = (as_container s).2 ∧
    (s.cache = none →
      (as_container s).1 = .container s.constructed ∧
      (as_container s).2.cache = some s.constructed ∧
      (as_container s).2.constructed = s.constructed + 1) ∧
    (∀ i, s.cache = some i → as_container s = (.container i, s)) ∧
    cleanup (cleanup t) = cleanup t := by
  refine ⟨?_, ?_, ?_, ?_, rfl⟩
  · cases hc : s.cache <;> simp [as_container, h, hc]
  · cases hc : s.cache <;> simp [as_container, h, hc]
  · intro hc
    simp [as_container, h, hc]
  · intro i hc
    simp [as_container, h, hc]

/-- C8 amended witness: a concrete Entity with its own container class caches on
first access; cleanup twice equals cleanup once. -/
theorem as_container_cached_amended_witness :
    (as_container (as_container ⟨true, none, none, 0⟩).2).1 =
      (as_container ⟨true, none, none, 0⟩).1 ∧
    (as_container ⟨true, none, none, 0⟩).2.cache = some 0 ∧
    cleanup (cleanup ⟨true, none, some 5, 3⟩) = cleanup ⟨true, none, some 5, 3⟩ := by
  obtain ⟨h1, -, h3, -, h5⟩ :=
    as_container_cached_amended ⟨true, none, none, 0⟩ ⟨true, none, some 5, 3⟩ rfl
  exact ⟨h1, (h3 rfl).2.1, h5⟩

theorem mem_commonNames (A B : List String) (n : String) :
    n ∈ commonNames A B ↔ n ∈ A ∧ n ∈ B := by
  unfold commonNames
  rw [(List.perm_insertionSort strLeRel _).mem_iff]
  simp [List.mem_dedup, List.mem_filter]

theorem sorted_commonNames (A B : List String) :
    List.Sorted strLeRel (commonNames A B) :=
  List.sorted_insertionSort strLeRel _

theorem dirCompare_none_iff (env : Env)
    (cf : String → String → Option String → Option Difference)
    (cm : String → String → List Difference)
    (self other : FilesystemDirectory) (source : Option String) :
    FilesystemDirectory.compare env cf cm self other source = none ↔
      (listingDiff env self other = none ∧
       cm self.path other.path = [] ∧
       ∀ n ∈ commonNames (DirectoryContainer.get_member_names self.tree)
           (DirectoryContainer.get_member_names other.tree),
         memberEntry cf cm self.path other.path n = none) := by
  unfold FilesystemDirectory.compare
  constructor
  · intro hnone
    split at hnone
    · rename_i h
      rw [List.isEmpty_iff] at h
      unfold dirDifferences at h
      rw [List.append_eq_nil, List.append_eq_nil] at h
      obtain ⟨⟨h1, h2⟩, h3⟩ := h
      refine ⟨?_, h2, List.filterMap_eq_nil_iff.mp h3⟩
      cases hl : listingDiff env self other with
      | none => rfl
      | some d =>
        rw [hl] at h1
        exact absurd h1 (by simp [Option.toList])
    · exact absurd hnone (by simp)
  · intro ⟨h1, h2, h3⟩
    have hE : dirDifferences env cf cm self other = [] := by
      unfold dirDifferences
      rw [h1, h2, List.filterMap_eq_nil_iff.mpr h3]
      rfl
    simp [hE]

/-- C5: a directory comparison examines exactly the distinct member names common
to both sides, in Python-sorted order (so the member details appear sorted —
members stored as b, a, c on both sides yield details ordered a, b, c); names
present on only one side contribute no member detail; and the result is absent
exactly when the listing, the directory metadata and every common member
contribute nothing. -/
theorem directory_compare_intersection (env : Env)
    (cf : String → String → Option String → Option Difference)
    (cm : String → String → List Difference)
    (self other : FilesystemDirectory) (source : Option String)
    (A B : List String) (n : String) :
    (n ∈ commonNames A B ↔ n ∈ A ∧ n ∈ B) ∧
    List.Sorted strLeRel (commonNames A B) ∧
    (FilesystemDirectory.compare env cf cm self other source = none ↔
      (listingDiff env self other = none ∧
       cm self.path other.path = [] ∧
       ∀ m ∈ commonNames (DirectoryContainer.get_member_names self.tree)
           (DirectoryContainer.get_member_names other.tree),
         memberEntry cf cm self.path other.path m = none)) ∧
    (FilesystemDirectory.compare ⟨true, true, true⟩ cfAlways cmNever
        ⟨"left", forestBAC⟩ ⟨"right", forestCAB⟩ none).map
      (fun d => d.details.map Difference.source1) =
      some ["left/a", "left/b", "left/c"] ∧
    (FilesystemDirectory.compare ⟨true, true, true⟩ cfAlways cmNever
        ⟨"left", forestAX⟩ ⟨"right", forestA⟩ none).map
      (fun d => d.details.map Difference.source1) =
      some ["file list", "left/a"] := by
  exact ⟨mem_commonNames A B n, sorted_commonNames A B,
    dirCompare_none_iff env cf cm self other source, by decide, by decide⟩

theorem pjoin_assoc (root d m : String) (hd : d ≠ "") :
    pjoin root (pjoin d m) = pjoin (pjoin root d) m := by
  unfold pjoin
  by_cases hr : root = ""
  · simp [hr, hd]
  · have h1 : ¬ (root ++ ("/" ++ d) = "") := by
      intro hcontra
      have hlen := congrArg String.length hcontra
      rw [String.length_append, String.length_append] at hlen
      have hs : ("/" : String).length = 1 := rfl
      have h0 : ("" : String).length = 0 := rfl
      omega
    simp [hr, hd, h1, String.append_assoc]

theorem walk_perm (root : String) (t : FSForest) (h : noEmptyDirNames t = true) :
    (levelFiles root t ++ walkSubdirFiles root t).Perm
      ((enumFiles t).map (pjoin root)) := by
  match t with
  | .nil => simp [levelFiles, walkSubdirFiles, enumFiles]
  | .cons (.file n) rest =>
    have hr : noEmptyDirNames rest = true := by
      simpa [noEmptyDirNames] using h
    have ih := walk_perm root rest hr
    simp only [levelFiles, walkSubdirFiles, enumFiles, List.map_cons, List.cons_append]
    exact ih.cons _
  | .cons (.dir d c) rest =>
    have hparts : d ≠ "" ∧ noEmptyDirNames c = true ∧ noEmptyDirNames rest = true := by
      simpa [noEmptyDirNames, Bool.and_eq_true, decide_eq_true_eq, and_assoc] using h
    obtain ⟨hd, hc, hrest⟩ := hparts
    have ihc := walk_perm (pjoin root d) c hc
    have ihrest := walk_perm root rest hrest
    have hcomp : ((enumFiles c).map (pjoin d)).map (pjoin root) =
        (enumFiles c).map (pjoin (pjoin root d)) := by
      rw [List.map_map]
      exact List.map_congr_left (fun m _ => pjoin_assoc root d m hd)
    simp only [levelFiles, walkSubdirFiles, enumFiles, List.map_append, hcomp]
    refine List.Perm.trans ?_ (ihc.append ihrest)
    refine List.Perm.trans
      (@List.perm_append_comm String (levelFiles root rest)
        ((levelFiles (pjoin root d) c ++ walkSubdirFiles (pjoin root d) c) ++
          walkSubdirFiles root rest)) ?_
    rw [List.append_assoc]
    exact List.Perm.append_left _ List.perm_append_comm
termination_by sizeF t
decreasing_by
  all_goals simp [sizeF]
  all_goals omega

/-- C7 counterexample: a directory whose entries are stored in the order b, a
makes `get_member_names` return them unsorted — the claim that the
member-name listing is returned as a lexicographically sorted sequence fails. -/
theorem get_member_names_counterexample :
    DirectoryContainer.get_member_names
        (.cons (.file "b") (.cons (.file "a") .nil)) = ["b", "a"] ∧
    ¬ List.Sorted strLeRel ["b", "a"] :=
  ⟨rfl, by decide⟩

/-- C7 amended: `get_member_names` returns the full recursive enumeration of
descendant file paths — exactly the spec's enumeration as a set, a permutation
of it as a sequence — but in filesystem traversal order, not sorted; sorting is
applied at the point of use. -/
theorem get_member_names_enumeration (t : FSForest) (h : noEmptyDirNames t = true) :
    (DirectoryContainer.get_member_names t).Perm (enumFiles t) ∧
    ∀ n, n ∈ DirectoryContainer.get_member_names t ↔ n ∈ enumFiles t := by
  have hp := walk_perm "" t h
  have hmap : (enumFiles t).map (pjoin "") = enumFiles t := by
    have hall : ∀ l : List String, l.map (pjoin "") = l := by
      intro l
      induction l with
      | nil => rfl
      | cons a as ih => simp [pjoin, ih]
    exact hall _
  unfold DirectoryContainer.get_member_names
  rw [hmap] at hp
  exact ⟨hp, fun n => hp.mem_iff⟩

/-- C7 amended witness: the enumeration of the concrete directory with entries
b, a, c is a permutation of the spec enumeration. -/
theorem get_member_names_enumeration_witness :
    (DirectoryContainer.get_member_names forestBAC).Perm (enumFiles forestBAC) :=
  (get_member_names_enumeration forestBAC rfl).1

/-! ## Lemmas about the scanning substitution -/

theorem substFuel_congr (μ : List Char → Option Nat) :
    ∀ f g l, l.length ≤ f → l.length ≤ g → substFuel μ f l = substFuel μ g l := by
  intro f
  induction f with
  | zero =>
    intro g l hf _
    have : l = [] := List.length_eq_zero.mp (Nat.le_zero.mp hf)
    subst this
    cases g <;> rfl
  | succ f ih =>
    intro g l hf hg
    cases l with
    | nil => cases g <;> rfl
    | cons c cs =>
      cases g with
      | zero => exact absurd hg (by simp)
      | succ g =>
        show substFuel μ (f + 1) (c :: cs) = substFuel μ (g + 1) (c :: cs)
        rw [substFuel, substFuel]
        cases hμ : μ (c :: cs) with
        | none =>
          dsimp only
          have hf' : cs.length ≤ f := by simpa using hf
          have hg' : cs.length ≤ g := by simpa using hg
          rw [ih g cs hf' hg']
        | some k =>
          dsimp only
          have hf' : (cs.drop (k - 1)).length ≤ f := by
            have : cs.length ≤ f := by simpa using hf
            rw [List.length_drop]
            omega
          have hg' : (cs.drop (k - 1)).length ≤ g := by
            have : cs.length ≤ g := by simpa using hg
            rw [List.length_drop]
            omega
          rw [ih g _ hf' hg']

theorem subst_cons_none (μ : List Char → Option Nat) (c : Char) (cs : List Char)
    (h : μ (c :: cs) = none) : subst μ (c :: cs) = c :: subst μ cs := by
  unfold subst
  rw [List.length_cons, substFuel, h]

theorem subst_cons_some (μ : List Char → Option Nat) (c : Char) (cs : List Char)
    (k : Nat) (h : μ (c :: cs) = some k) :
    subst μ (c :: cs) = subst μ (cs.drop (k - 1)) := by
  unfold subst
  rw [List.length_cons, substFuel, h]
  exact substFuel_congr μ _ _ _ (by rw [List.length_drop]; omega) (le_refl _)

theorem subst_eq_self (μ : List Char → Option Nat) :
    ∀ l : List Char, (∀ c cs, (c :: cs) <:+ l → μ (c :: cs) = none) →
      subst μ l = l := by
  intro l
  induction l with
  | nil => intro _; rfl
  | cons c cs ih =>
    intro h
    rw [subst_cons_none μ c cs (h c cs (by exact List.suffix_rfl))]
    rw [ih (fun x xs hs => h x xs (hs.trans (List.suffix_cons c cs)))]

theorem subst_append (μ : List Char → Option Nat) :
    ∀ pre tail : List Char,
      (∀ c cs, (c :: cs) <:+ pre → μ ((c :: cs) ++ tail) = none) →
      subst μ (pre ++ tail) = pre ++ subst μ tail := by
  intro pre
  induction pre with
  | nil => intro tail _; rfl
  | cons c cs ih =>
    intro tail h
    have h0 : μ (c :: (cs ++ tail)) = none := by
      have := h c cs List.suffix_rfl
      rwa [List.cons_append] at this
    rw [List.cons_append, subst_cons_none μ _ _ h0,
      ih tail (fun x xs hs => h x xs (hs.trans (List.suffix_cons c cs)))]
    rfl

theorem ne_of_pred {p : Char → Bool} (c d : Char) (h : p c = true)
    (hd : p d = false) : c ≠ d := by
  intro he
  rw [he, hd] at h
  cases h

theorem deviceMatch_head_ne (c : Char) (cs : List Char) (h : c ≠ 'D') :
    deviceMatch (c :: cs) = none := by
  unfold deviceMatch litDevice dropLit
  simp [h]

theorem inodeMatch_head_ne (c : Char) (cs : List Char) (h : c ≠ 'I') :
    inodeMatch (c :: cs) = none := by
  unfold inodeMatch litInode dropLit
  simp [h]

theorem linksMatch_head_ne (c : Char) (cs : List Char) (h : c ≠ 'L') :
    linksMatch (c :: cs) = none := by
  unfold linksMatch litLinks dropLit
  simp [h]

theorem subst_no_head (μ : List Char → Option Nat) (hc : Char)
    (hμ : ∀ c cs, c ≠ hc → μ (c :: cs) = none)
    (l : List Char) (h : ∀ c ∈ l, c ≠ hc) : subst μ l = l :=
  subst_eq_self μ l (fun c cs hs => hμ c cs (h c (hs.subset (List.mem_cons_self c cs))))

theorem subst_append_no_head (μ : List Char → Option Nat) (hc : Char)
    (hμ : ∀ c cs, c ≠ hc → μ (c :: cs) = none)
    (pre tail : List Char) (h : ∀ c ∈ pre, c ≠ hc) :
    subst μ (pre ++ tail) = pre ++ subst μ tail :=
  subst_append μ pre tail (fun c cs hs => by
    rw [List.cons_append]
    exact hμ c (cs ++ tail) (h c (hs.subset (List.mem_cons_self c cs))))

theorem countWhile_append_stop (p : Char → Bool) :
    ∀ (l : List Char) (c : Char) (r : List Char), (∀ x ∈ l, p x = true) →
      p c = false → countWhile p (l ++ c :: r) = l.length := by
  intro l
  induction l with
  | nil =>
    intro c r _ hc
    simp [countWhile, hc]
  | cons a as ih =>
    intro c r hl hc
    rw [List.cons_append, countWhile, if_pos (hl a (List.mem_cons_self a as)),
      ih c r (fun x hx => hl x (List.mem_cons_of_mem a hx)) hc, List.length_cons]

theorem countWhile_all (p : Char → Bool) :
    ∀ l : List Char, (∀ x ∈ l, p x = true) → countWhile p l = l.length := by
  intro l
  induction l with
  | nil => intro _; rfl
  | cons a as ih =>
    intro hl
    rw [countWhile, if_pos (hl a (List.mem_cons_self a as)),
      ih (fun x hx => hl x (List.mem_cons_of_mem a hx)), List.length_cons]

theorem dropLit_append : ∀ lit r : List Char, dropLit lit (lit ++ r) = some r := by
  intro lit
  induction lit with
  | nil => intro r; rfl
  | cons p ps ih =>
    intro r
    rw [List.cons_append, dropLit, if_pos rfl]
    exact ih r

theorem dropDigits_append : ∀ (ds rest : List Char),
    (∀ c ∈ ds, isDigitCh c = true) →
    dropDigits ds.length (ds ++ rest) = some rest := by
  intro ds
  induction ds with
  | nil => intro rest _; rfl
  | cons d dsr ih =>
    intro rest h
    rw [List.length_cons, List.cons_append, dropDigits,
      if_pos (h d (List.mem_cons_self d dsr))]
    exact ih rest (fun c hc => h c (List.mem_cons_of_mem d hc))

theorem dropDigits_append_of_len (n : Nat) (ds rest : List Char)
    (hn : ds.length = n) (hds : ∀ c ∈ ds, isDigitCh c = true) :
    dropDigits n (ds ++ rest) = some rest := by
  subst hn
  exact dropDigits_append ds rest hds

theorem deviceMatch_eval (hex dec rest : List Char)
    (hhexne : hex.length ≠ 0) (hhex : ∀ c ∈ hex, isHexLowerCh c = true)
    (hdecne : dec.length ≠ 0) (hdec : ∀ c ∈ dec, isDigitCh c = true) :
    deviceMatch (litDevice ++ (hex ++ 'h' :: '/' :: (dec ++ 'd' :: rest))) =
      some (8 + hex.length + 2 + dec.length + 1) := by
  unfold deviceMatch
  rw [dropLit_append]
  dsimp only
  rw [countWhile_append_stop isHexLowerCh hex 'h' ('/' :: (dec ++ 'd' :: rest)) hhex (by decide),
    if_neg hhexne, List.drop_left,
    show ('h' :: '/' :: (dec ++ 'd' :: rest)) = ['h', '/'] ++ (dec ++ 'd' :: rest) from rfl,
    dropLit_append]
  dsimp only
  rw [countWhile_append_stop isDigitCh dec 'd' rest hdec (by decide),
    if_neg hdecne, List.drop_left,
    show ('d' :: rest) = ['d'] ++ rest from rfl, dropLit_append]

theorem inodeMatch_eval (ds rest : List Char) (hne : ds.length ≠ 0)
    (hcw : countWhile isDigitCh (ds ++ rest) = ds.length) :
    inodeMatch (litInode ++ (ds ++ rest)) = some (7 + ds.length) := by
  unfold inodeMatch
  rw [dropLit_append]
  dsimp only
  rw [hcw, if_neg hne]

theorem linksMatch_eval (ds rest : List Char) (hne : ds.length ≠ 0)
    (hcw : countWhile isDigitCh (ds ++ rest) = ds.length) :
    linksMatch (litLinks ++ (ds ++ rest)) = some (7 + ds.length) := by
  unfold linksMatch
  rw [dropLit_append]
  dsimp only
  rw [hcw, if_neg hne]

theorem subst_device_head (hex dec rest : List Char)
    (hhexne : hex.length ≠ 0) (hhex : ∀ c ∈ hex, isHexLowerCh c = true)
    (hdecne : dec.length ≠ 0) (hdec : ∀ c ∈ dec, isDigitCh c = true) :
    subst deviceMatch (litDevice ++ (hex ++ 'h' :: '/' :: (dec ++ 'd' :: rest))) =
      subst deviceMatch rest := by
  have hm := deviceMatch_eval hex dec rest hhexne hhex hdecne hdec
  have hshape : litDevice ++ (hex ++ 'h' :: '/' :: (dec ++ 'd' :: rest)) =
      'D' :: (['e', 'v', 'i', 'c', 'e', ':', ' '] ++
        (hex ++ 'h' :: '/' :: (dec ++ 'd' :: rest))) := rfl
  rw [hshape] at hm ⊢
  rw [subst_cons_some _ _ _ _ hm]
  congr 1
  have hA : (['e', 'v', 'i', 'c', 'e', ':', ' '] ++ (hex ++ 'h' :: '/' :: (dec ++ ['d']))) ++
      rest = ['e', 'v', 'i', 'c', 'e', ':', ' '] ++
      (hex ++ 'h' :: '/' :: (dec ++ 'd' :: rest)) := by
    simp [List.append_assoc]
  rw [← hA]
  exact List.drop_left' (by
    simp only [List.length_append, List.length_cons, List.length_nil]
    omega)

theorem subst_inode_head (ds rest : List Char) (hne : ds.length ≠ 0)
    (hcw : countWhile isDigitCh (ds ++ rest) = ds.length) :
    subst inodeMatch (litInode ++ (ds ++ rest)) = subst inodeMatch rest := by
  have hm := inodeMatch_eval ds rest hne hcw
  have hshape : litInode ++ (ds ++ rest) =
      'I' :: (['n', 'o', 'd', 'e', ':', ' '] ++ (ds ++ rest)) := rfl
  rw [hshape] at hm ⊢
  rw [subst_cons_some _ _ _ _ hm]
  congr 1
  have hA : (['n', 'o', 'd', 'e', ':', ' '] ++ ds) ++ rest =
      ['n', 'o', 'd', 'e', ':', ' '] ++ (ds ++ rest) := by
    rw [List.append_assoc]
  rw [← hA]
  exact List.drop_left' (by
    simp only [List.length_append, List.length_cons, List.length_nil]
    omega)

theorem subst_links_head (ds rest : List Char) (hne : ds.length ≠ 0)
    (hcw : countWhile isDigitCh (ds ++ rest) = ds.length) :
    subst linksMatch (litLinks ++ (ds ++ rest)) = subst linksMatch rest := by
  have hm := linksMatch_eval ds rest hne hcw
  have hshape : litLinks ++ (ds ++ rest) =
      'L' :: (['i', 'n', 'k', 's', ':', ' '] ++ (ds ++ rest)) := rfl
  rw [hshape] at hm ⊢
  rw [subst_cons_some _ _ _ _ hm]
  congr 1
  have hA : (['i', 'n', 'k', 's', ':', ' '] ++ ds) ++ rest =
      ['i', 'n', 'k', 's', ':', ' '] ++ (ds ++ rest) := by
    rw [List.append_assoc]
  rw [← hA]
  exact List.drop_left' (by
    simp only [List.length_append, List.length_cons, List.length_nil]
    omega)

theorem fileLineSub_head (c : Char) (cs : List Char) (hsp : isSpaceCh c = false)
    (hne : c ≠ 'F') : fileLineSub (c :: cs) = c :: cs := by
  simp [fileLineSub, countWhile, litFile, dropLit, hsp, hne]

theorem accessSub_head_ne (c : Char) (cs : List Char) (h : c ≠ 'A') :
    timeLineSub litAccess (c :: cs) = c :: cs := by
  simp [timeLineSub, litAccess, dropLit, h]

theorem changeSub_head_ne (c : Char) (cs : List Char) (h : c ≠ 'C') :
    timeLineSub litChange (c :: cs) = c :: cs := by
  simp [timeLineSub, litChange, dropLit, h]

theorem timeLineSub_match (lit : List Char) (y m d rest : List Char)
    (hy4 : y.length = 4) (hm2 : m.length = 2) (hd2 : d.length = 2)
    (hyd : ∀ c ∈ y, isDigitCh c = true) (hmd : ∀ c ∈ m, isDigitCh c = true)
    (hdd : ∀ c ∈ d, isDigitCh c = true) :
    timeLineSub lit (lit ++ (y ++ '-' :: (m ++ '-' :: (d ++ rest)))) = [] := by
  unfold timeLineSub
  rw [dropLit_append]
  dsimp only
  rw [dropDigits_append_of_len 4 y _ hy4 hyd]
  dsimp only
  rw [show ('-' :: (m ++ '-' :: (d ++ rest))) = ['-'] ++ (m ++ '-' :: (d ++ rest)) from rfl,
    dropLit_append]
  dsimp only
  rw [dropDigits_append_of_len 2 m _ hm2 hmd]
  dsimp only
  rw [show ('-' :: (d ++ rest)) = ['-'] ++ (d ++ rest) from rfl, dropLit_append]
  dsimp only
  rw [dropDigits_append_of_len 2 d _ hd2 hdd]

theorem timeShaped_chars (t : List Char) (h : TimeShaped t) :
    ∀ c ∈ t, isTimeCh c = true := by
  obtain ⟨y, m, d, rest, hteq, -, -, -, hyd, hmd, hdd, hrest⟩ := h
  subst hteq
  intro c hc
  rcases List.mem_append.mp hc with hc | hc
  · simp [isTimeCh, hyd c hc]
  rcases List.mem_cons.mp hc with rfl | hc
  · decide
  rcases List.mem_append.mp hc with hc | hc
  · simp [isTimeCh, hmd c hc]
  rcases List.mem_cons.mp hc with rfl | hc
  · decide
  rcases List.mem_append.mp hc with hc | hc
  · simp [isTimeCh, hdd c hc]
  · exact hrest c hc

theorem no_head_in_lit_time (hc : Char) (lit t : List Char)
    (hlit : ∀ x ∈ lit, x ≠ hc) (ht : ∀ c ∈ t, isTimeCh c = true)
    (hhc : isTimeCh hc = false) : ∀ c ∈ lit ++ t, c ≠ hc := by
  intro c hcm
  rcases List.mem_append.mp hcm with hcm | hcm
  · exact hlit c hcm
  · exact ne_of_pred c hc (ht c hcm) hhc

theorem fileLineSub_litDevice (Y : List Char) :
    fileLineSub (litDevice ++ Y) = litDevice ++ Y := by
  rw [show litDevice ++ Y = 'D' :: (['e', 'v', 'i', 'c', 'e', ':', ' '] ++ Y) from rfl]
  exact fileLineSub_head 'D' _ (by decide) (by decide)

theorem fileLineSub_litAccess (Y : List Char) :
    fileLineSub (litAccess ++ Y) = litAccess ++ Y := by
  rw [show litAccess ++ Y = 'A' :: (['c', 'c', 'e', 's', 's', ':', ' '] ++ Y) from rfl]
  exact fileLineSub_head 'A' _ (by decide) (by decide)

theorem fileLineSub_litChange (Y : List Char) :
    fileLineSub (litChange ++ Y) = litChange ++ Y := by
  rw [show litChange ++ Y = 'C' :: (['h', 'a', 'n', 'g', 'e', ':', ' '] ++ Y) from rfl]
  exact fileLineSub_head 'C' _ (by decide) (by decide)

theorem accessSub_litChange (Y : List Char) :
    timeLineSub litAccess (litChange ++ Y) = litChange ++ Y := by
  rw [show litChange ++ Y = 'C' :: (['h', 'a', 'n', 'g', 'e', ':', ' '] ++ Y) from rfl]
  exact accessSub_head_ne 'C' _ (by decide)

theorem len_ne_zero (l : List Char) (h : l ≠ []) : l.length ≠ 0 := by
  intro h0
  exact h (List.length_eq_zero.mp h0)

theorem filter_device_line (hex dec ino lnk : List Char)
    (hhexne : hex.length ≠ 0) (hhex : ∀ c ∈ hex, isHexLowerCh c = true)
    (hdecne : dec.length ≠ 0) (hdec : ∀ c ∈ dec, isDigitCh c = true)
    (hinone : ino.length ≠ 0) (hino : ∀ c ∈ ino, isDigitCh c = true)
    (hlnkne : lnk.length ≠ 0) (hlnk : ∀ c ∈ lnk, isDigitCh c = true) :
    Stat.filter (litDevice ++ hex ++ 'h' :: '/' :: (dec ++ 'd' :: '\t' ::
      (litInode ++ ino ++ ' ' :: ' ' :: (litLinks ++ lnk)))) = ['\t', ' ', ' '] := by
  have hnoD : ∀ c ∈ ('\t' :: (litInode ++ ino ++ ' ' :: ' ' :: (litLinks ++ lnk))),
      c ≠ 'D' := by
    intro c hc
    rcases List.mem_cons.mp hc with rfl | hc
    · decide
    rcases List.mem_append.mp hc with hc | hc
    · rcases List.mem_append.mp hc with hc | hc
      · exact (by decide : ∀ x ∈ litInode, x ≠ 'D') c hc
      · exact ne_of_pred c 'D' (hino c hc) (by decide)
    rcases List.mem_cons.mp hc with rfl | hc
    · decide
    rcases List.mem_cons.mp hc with rfl | hc
    · decide
    rcases List.mem_append.mp hc with hc | hc
    · exact (by decide : ∀ x ∈ litLinks, x ≠ 'D') c hc
    · exact ne_of_pred c 'D' (hlnk c hc) (by decide)
  have hnoI : ∀ c ∈ (' ' :: ' ' :: (litLinks ++ lnk)), c ≠ 'I' := by
    intro c hc
    rcases List.mem_cons.mp hc with rfl | hc
    · decide
    rcases List.mem_cons.mp hc with rfl | hc
    · decide
    rcases List.mem_append.mp hc with hc | hc
    · exact (by decide : ∀ x ∈ litLinks, x ≠ 'I') c hc
    · exact ne_of_pred c 'I' (hlnk c hc) (by decide)
  unfold Stat.filter
  rw [List.append_assoc litDevice hex, fileLineSub_litDevice,
    subst_device_head hex dec _ hhexne hhex hdecne hdec,
    subst_no_head deviceMatch 'D' deviceMatch_head_ne _ hnoD,
    subst_cons_none inodeMatch '\t' _ (inodeMatch_head_ne '\t' _ (by decide)),
    List.append_assoc litInode ino,
    subst_inode_head ino (' ' :: ' ' :: (litLinks ++ lnk)) hinone
      (countWhile_append_stop isDigitCh ino ' ' (' ' :: (litLinks ++ lnk)) hino (by decide)),
    subst_no_head inodeMatch 'I' inodeMatch_head_ne _ hnoI,
    subst_cons_none linksMatch '\t' _ (linksMatch_head_ne '\t' _ (by decide)),
    subst_cons_none linksMatch ' ' _ (linksMatch_head_ne ' ' _ (by decide)),
    subst_cons_none linksMatch ' ' _ (linksMatch_head_ne ' ' _ (by decide)),
    show litLinks ++ lnk = litLinks ++ (lnk ++ []) by rw [List.append_nil],
    subst_links_head lnk [] hlnkne
      (by rw [List.append_nil]; exact countWhile_all isDigitCh lnk hlnk),
    show subst linksMatch [] = [] from rfl,
    accessSub_head_ne '\t' _ (by decide),
    changeSub_head_ne '\t' _ (by decide)]

theorem filter_access_line (t : List Char) (ht : TimeShaped t) :
    Stat.filter (litAccess ++ t) = [] := by
  have hchars := timeShaped_chars t ht
  obtain ⟨y, m, d, rest, hteq, hy4, hm2, hd2, hyd, hmd, hdd, hrest⟩ := ht
  unfold Stat.filter
  rw [fileLineSub_litAccess,
    subst_no_head deviceMatch 'D' deviceMatch_head_ne _
      (no_head_in_lit_time 'D' litAccess t (by decide) hchars (by decide)),
    subst_no_head inodeMatch 'I' inodeMatch_head_ne _
      (no_head_in_lit_time 'I' litAccess t (by decide) hchars (by decide)),
    subst_no_head linksMatch 'L' linksMatch_head_ne _
      (no_head_in_lit_time 'L' litAccess t (by decide) hchars (by decide)),
    hteq, timeLineSub_match litAccess y m d rest hy4 hm2 hd2 hyd hmd hdd]
  rfl

theorem filter_change_line (t : List Char) (ht : TimeShaped t) :
    Stat.filter (litChange ++ t) = [] := by
  have hchars := timeShaped_chars t ht
  obtain ⟨y, m, d, rest, hteq, hy4, hm2, hd2, hyd, hmd, hdd, hrest⟩ := ht
  unfold Stat.filter
  rw [fileLineSub_litChange,
    subst_no_head deviceMatch 'D' deviceMatch_head_ne _
      (no_head_in_lit_time 'D' litChange t (by decide) hchars (by decide)),
    subst_no_head inodeMatch 'I' inodeMatch_head_ne _
      (no_head_in_lit_time 'I' litChange t (by decide) hchars (by decide)),
    subst_no_head linksMatch 'L' linksMatch_head_ne _
      (no_head_in_lit_time 'L' litChange t (by decide) hchars (by decide)),
    accessSub_litChange,
    hteq, timeLineSub_match litChange y m d rest hy4 hm2 hd2 hyd hmd hdd]

/-- C6: two stat outputs that differ only in the volatile fields — device id,
inode number, hard-link count, access timestamp, change timestamp — with every
other field identical produce no metadata Difference, because `Stat.filter`
removes those fields from each line before the outputs are diffed. -/
theorem stat_metadata_filtering (s1 s2 : StatOutput) (p1 p2 : String)
    (hfile : s1.fileLine = s2.fileLine) (hsize : s1.sizeLine = s2.sizeLine)
    (hperms : s1.permsLine = s2.permsLine) (hmtime : s1.mtimeLine = s2.mtimeLine)
    (h1 : StatShaped s1) (h2 : StatShaped s2) :
    statDifference (renderStat s1) (renderStat s2) p1 p2 = none := by
  obtain ⟨h1a, h1b, h1c, h1d, h1e, h1f, h1g, h1h, h1i, h1j⟩ := h1
  obtain ⟨h2a, h2b, h2c, h2d, h2e, h2f, h2g, h2h, h2i, h2j⟩ := h2
  have hmaps : (renderStat s1).map Stat.filter = (renderStat s2).map Stat.filter := by
    unfold renderStat
    simp only [List.map_cons, List.map_nil]
    rw [hfile, hsize, hperms, hmtime,
      filter_device_line s1.devHex s1.devDec s1.inode s1.links
        (len_ne_zero _ h1a) h1b (len_ne_zero _ h1c) h1d
        (len_ne_zero _ h1e) h1f (len_ne_zero _ h1g) h1h,
      filter_device_line s2.devHex s2.devDec s2.inode s2.links
        (len_ne_zero _ h2a) h2b (len_ne_zero _ h2c) h2d
        (len_ne_zero _ h2e) h2f (len_ne_zero _ h2g) h2h,
      filter_access_line s1.atime h1i, filter_access_line s2.atime h2i,
      filter_change_line s1.ctime h1j, filter_change_line s2.ctime h2j]
  unfold statDifference
  rw [if_pos hmaps]

/-- C6 witness: two concrete stat outputs sharing every non-volatile line but
with different device ids, inodes, link counts and access/change timestamps
produce no metadata Difference. -/
theorem stat_metadata_filtering_witness :
    statDifference
      (renderStat ⟨[' ', 'F'], [' ', 'S'], ['f', 'd'], ['2', '5', '3'],
        ['1', '2', '3'], ['1'], ['A'], ['2', '0', '1', '5', '-', '0', '1', '-', '0', '2'],
        ['M'], ['2', '0', '1', '5', '-', '0', '3', '-', '0', '4']⟩)
      (renderStat ⟨[' ', 'F'], [' ', 'S'], ['a'], ['9'],
        ['9', '9'], ['2'], ['A'], ['2', '0', '1', '6', '-', '1', '1', '-', '1', '2'],
        ['M'], ['2', '0', '1', '7', '-', '0', '5', '-', '0', '6']⟩)
      "path1" "path2" = none := by
  refine stat_metadata_filtering _ _ _ _ rfl rfl rfl rfl ?_ ?_
  · exact ⟨by decide, by decide, by decide, by decide, by decide, by decide,
      by decide, by decide,
      ⟨['2', '0', '1', '5'], ['0', '1'], ['0', '2'], [], by decide, by decide,
        by decide, by decide, by decide, by decide, by decide, by decide⟩,
      ⟨['2', '0', '1', '5'], ['0', '3'], ['0', '4'], [], by decide, by decide,
        by decide, by decide, by decide, by decide, by decide, by decide⟩⟩
  · exact ⟨by decide, by decide, by decide, by decide, by decide, by decide,
      by decide, by decide,
      ⟨['2', '0', '1', '6'], ['1', '1'], ['1', '2'], [], by decide, by decide,
        by decide, by decide, by decide, by decide, by decide, by decide⟩,
      ⟨['2', '0', '1', '7'], ['0', '5'], ['0', '6'], [], by decide, by decide,
        by decide, by decide, by decide, by decide, by decide, by decide⟩⟩

end Diffoscope
